import Mathlib

/-
Verification of the byte-range server of dolthub/headers_tester
(src/server/main.go) against its natural-language specification.

The embedding models Go strings as lists of characters, Go int64 values as
integers together with explicit wrapping modulo 2^64, and Go uint64 values
as natural numbers below 2^64.  Fallible operations return Option/Except.
-/

/-- Interpretation of a Go uint64-to-int64 conversion: the argument is the
numeric value of a uint64 (a natural number below 2^64). -/
def toInt64 (n : Nat) : Int :=
  if n < 2 ^ 63 then (n : Int) else (n : Int) - 2 ^ 64

/-- Two's-complement wrapping of Go int64 arithmetic: the representative of
z modulo 2^64 lying in [-2^63, 2^63). -/
def wrap64 (z : Int) : Int :=
  (z + 2 ^ 63) % 2 ^ 64 - 2 ^ 63

/-- Go uint64 subtraction a - b, wrapping modulo 2^64 (a, b < 2^64). -/
def usub64 (a b : Nat) : Nat :=
  (a + 2 ^ 64 - b) % 2 ^ 64

/-- Go unicode.IsSpace on a character, by code point: the characters
strings.TrimSpace strips (ASCII whitespace, NEL, NBSP and the Unicode
White_Space code points). -/
def goIsSpace (c : Char) : Bool :=
  let n := c.toNat
  n = 32 || n = 9 || n = 10 || n = 11 || n = 12 || n = 13 ||
  n = 0x85 || n = 0xa0 || n = 0x1680 || (0x2000 ≤ n && n ≤ 0x200a) ||
  n = 0x2028 || n = 0x2029 || n = 0x202f || n = 0x205f || n = 0x3000

/-- Go strings.TrimSpace: drop whitespace from both ends. -/
def trimSpace (s : List Char) : List Char :=
  ((s.dropWhile goIsSpace).reverse.dropWhile goIsSpace).reverse

/-- Go strings.Split(s, "-"): the pieces of s between the occurrences of
the separator "-"; n separators yield n+1 pieces. -/
def splitOnDash : List Char → List (List Char)
  | [] => [[]]
  | c :: rest =>
    if c = '-' then [] :: splitOnDash rest
    else
      match splitOnDash rest with
      | [] => [[c]]
      | t :: ts => (c :: t) :: ts

/-- A decimal digit character, by code point (as Go strconv accepts in
base 10). -/
def isDigitC (c : Char) : Bool :=
  48 ≤ c.toNat && c.toNat ≤ 57

/-- A nonempty all-digit token. -/
def isDigits (s : List Char) : Bool :=
  !s.isEmpty && s.all isDigitC

/-- Numeric value of a digit string, most significant digit first. -/
def digitsToNat (s : List Char) : Nat :=
  s.foldl (fun a c => a * 10 + (c.toNat - 48)) 0

/-- Go strconv.ParseUint(s, 10, 64): succeeds exactly on a nonempty string
of decimal digits whose value fits in a uint64; no sign, no whitespace. -/
def parseUint64 (s : List Char) : Option Nat :=
  if isDigits s = true ∧ digitsToNat s < 2 ^ 64 then some (digitsToNat s) else none

/-- The two error values a range-string parse can produce in
src/server/main.go: errInvalidRangeStr ("invalid range string"), and the
error value returned by strconv.ParseUint for a token that does not parse. -/
inductive RangeError where
  | invalidRangeStr
  | numError
deriving DecidableEq

/-- The body of offsetAndLenFromRange once the specifier has split into
exactly two "-"-delimited tokens t0 and t1 (src/server/main.go lines
246-275): suffix form when t0 is empty, open form when t1 is empty, and the
full form otherwise. -/
def parseTokens (t0 t1 : List Char) (contentSize : Int) : Except RangeError (Int × Int) :=
  if t0 = [] then
    match parseUint64 (trimSpace t1) with
    | none => .error .invalidRangeStr
    | some n => .ok (wrap64 (contentSize - toInt64 n), toInt64 n)
  else if t1 = [] then
    match parseUint64 (trimSpace t0) with
    | none => .error .numError
    | some n => .ok (toInt64 n, wrap64 (contentSize - toInt64 n))
  else
    match parseUint64 (trimSpace t0), parseUint64 (trimSpace t1) with
    | some a, some b => .ok (toInt64 a, wrap64 (toInt64 (usub64 b a) + 1))
    | _, _ => .error .numError

/-- offsetAndLenFromRange (src/server/main.go lines 232-275): an empty
specifier yields the absence sentinel (-1, -1) with no error; a specifier
without the "bytes=" lead or without exactly two "-"-delimited tokens
yields errInvalidRangeStr; otherwise the two tokens are interpreted by
parseTokens. -/
def offsetAndLenFromRange (rngStr : List Char) (contentSize : Int) :
    Except RangeError (Int × Int) :=
  if rngStr = [] then .ok (-1, -1)
  else if rngStr.take 6 ≠ "bytes=".data then .error .invalidRangeStr
  else
    match splitOnDash (rngStr.drop 6) with
    | [t0, t1] => parseTokens t0 t1 contentSize
    | _ => .error .invalidRangeStr

/-- inMemContents.ReadRange (src/server/main.go lines 301-306): fails when
end < start, end > Len(), or start < 0, and otherwise returns the slice
contents[start:end]. -/
def ReadRange (contents : List Nat) (start e : Int) : Option (List Nat) :=
  if e < start ∨ e > (contents.length : Int) ∨ start < 0 then none
  else some ((contents.drop start.toNat).take (e - start).toNat)

/-- An inbound request as serveContents reads it.  Go's http.Header.Get
canonicalizes header names, so the source's Get("Range") and Get("range")
read the same entry: one field per header suffices.  The two query
parameter names are case-sensitive and kept distinct. -/
structure Request where
  method : String
  rangeHeader : List Char
  xDoltRangeHeader : List Char
  queryRangeCap : List Char
  queryRangeLower : List Char

/-- A served response: status code, whether the Accept-Ranges header was
added before the status was written, the Content-Range header (its three
formatted numbers), the Content-Length header (its formatted number), and
the body bytes. -/
structure Response where
  status : Nat
  acceptRanges : Bool
  contentRange : Option (Int × Int × Int)
  contentLength : Option Int
  body : List Nat
deriving DecidableEq

/-- writeContentRange (src/server/main.go lines 181-230): parse the
specifier against int64(contents.Len()); on a parse error answer 400; call
ReadRange(offset, offset+length) and on failure answer 400; otherwise
answer 206 with Content-Range "bytes offset-(offset+length-1)/Len",
Content-Length length, and the slice as body.  The Accept-Ranges header was
already added by the caller. -/
def writeContentRange (contents : List Nat) (rangeStr : List Char) : Response :=
  match offsetAndLenFromRange rangeStr (contents.length : Int) with
  | .error _ =>
    { status := 400, acceptRanges := true, contentRange := none,
      contentLength := none, body := [] }
  | .ok (offset, length) =>
    match ReadRange contents offset (wrap64 (offset + length)) with
    | none =>
      { status := 400, acceptRanges := true, contentRange := none,
        contentLength := none, body := [] }
    | some b =>
      { status := 206, acceptRanges := true,
        contentRange := some (offset, wrap64 (wrap64 (offset + length) - 1),
          (contents.length : Int)),
        contentLength := some length, body := b }

/-- The plain-text body written for a request whose method is not GET. -/
def badMethodBody : List Nat :=
  "only GET requests supported.".data.map Char.toNat

/-- serveContents (src/server/main.go lines 109-179): reject any non-GET
method with 400 before the Accept-Ranges header is added; then add
Accept-Ranges and take the first non-empty specifier among the Range
header, the X-Dolt-Range header and the Range/range query parameters; with
no specifier answer 200 with the whole content. -/
def serveContents (req : Request) (contents : List Nat) : Response :=
  if req.method ≠ "GET" then
    { status := 400, acceptRanges := false, contentRange := none,
      contentLength := none, body := badMethodBody }
  else if req.rangeHeader ≠ [] then writeContentRange contents req.rangeHeader
  else if req.xDoltRangeHeader ≠ [] then writeContentRange contents req.xDoltRangeHeader
  else
    let rangeParam := if req.queryRangeCap ≠ [] then req.queryRangeCap
      else req.queryRangeLower
    if rangeParam ≠ [] then writeContentRange contents rangeParam
    else
      { status := 200, acceptRanges := true, contentRange := none,
        contentLength := some (contents.length : Int), body := contents }

example : offsetAndLenFromRange "bytes=2500-2599".data 4000 = .ok (2500, 100) := rfl
example : offsetAndLenFromRange "bytes=-80".data 4000 = .ok (3920, 80) := rfl
example : offsetAndLenFromRange "bytes=100-".data 4000 = .ok (100, 3900) := rfl
example : offsetAndLenFromRange "bytes=abc-123".data 4000 = .error .numError := rfl
example : offsetAndLenFromRange "bytes=-abc".data 4000 = .error .invalidRangeStr := rfl
example : (serveContents ⟨"GET", "bytes=5-4".data, [], [], []⟩ (List.range 10)).status = 206 := rfl
example : (serveContents ⟨"GET", "bytes=5-3".data, [], [], []⟩ (List.range 10)).status = 400 := rfl
example : offsetAndLenFromRange "bytes= 0 - 100".data 4000 = .ok (0, 101) := rfl
example : offsetAndLenFromRange "bytes=-9223372036854775808".data 4000 =
    .ok (-9223372036854771808, -9223372036854775808) := rfl

/-! ### Arithmetic facts about the machine-integer helpers -/

theorem wrap64_eq_self {z : Int} (h1 : -(2 ^ 63) ≤ z) (h2 : z < 2 ^ 63) : wrap64 z = z := by
  unfold wrap64
  rw [Int.emod_eq_of_lt (by omega) (by omega)]
  omega

theorem wrap64_lb (z : Int) : -(2 ^ 63) ≤ wrap64 z := by
  unfold wrap64
  have := Int.emod_nonneg (z + 2 ^ 63) (b := 2 ^ 64) (by norm_num)
  omega

theorem wrap64_ub (z : Int) : wrap64 z < 2 ^ 63 := by
  unfold wrap64
  have := Int.emod_lt_of_pos (z + 2 ^ 63) (b := 2 ^ 64) (by norm_num)
  omega

theorem toInt64_of_lt {n : Nat} (h : n < 2 ^ 63) : toInt64 n = (n : Int) := by
  unfold toInt64
  rw [if_pos h]

theorem toInt64_of_ge {n : Nat} (h : 2 ^ 63 ≤ n) : toInt64 n = (n : Int) - 2 ^ 64 := by
  rw [toInt64, if_neg (by omega)]

theorem toInt64_lb {n : Nat} (h : n < 2 ^ 64) : -(2 ^ 63) ≤ toInt64 n := by
  unfold toInt64
  split <;> omega

theorem toInt64_ub {n : Nat} (h : n < 2 ^ 64) : toInt64 n < 2 ^ 63 := by
  unfold toInt64
  split <;> omega

/-! ### Facts about the string helpers -/

theorem dropWhile_sat_append (q : Char → Bool) (p l : List Char)
    (hp : ∀ c ∈ p, q c = true) :
    List.dropWhile q (p ++ l) = List.dropWhile q l := by
  induction p with
  | nil => rfl
  | cons a p ih =>
    have ha := hp a (by simp)
    simp only [List.cons_append, List.dropWhile_cons, ha, if_true]
    exact ih fun c hc => hp c (by simp [hc])

theorem dropWhile_sat_nil (q : Char → Bool) (p : List Char)
    (hp : ∀ c ∈ p, q c = true) : List.dropWhile q p = [] := by
  have := dropWhile_sat_append q p [] hp
  simpa using this

theorem dropWhile_unsat (q : Char → Bool) (l : List Char)
    (hl : ∀ c ∈ l, q c = false) : List.dropWhile q l = l := by
  cases l with
  | nil => rfl
  | cons a l => simp [List.dropWhile_cons, hl a (by simp)]

theorem dropWhile_append_split (q : Char → Bool) (l p : List Char) :
    List.dropWhile q (l ++ p) =
      if (List.dropWhile q l).isEmpty then List.dropWhile q p
      else List.dropWhile q l ++ p := by
  induction l with
  | nil => simp
  | cons a l ih =>
    by_cases h : q a = true
    · simpa [List.dropWhile_cons, h] using ih
    · simp [List.dropWhile_cons, h]

theorem trimSpace_pad_left (p l : List Char) (hp : ∀ c ∈ p, goIsSpace c = true) :
    trimSpace (p ++ l) = trimSpace l := by
  unfold trimSpace
  rw [dropWhile_sat_append _ _ _ hp]

theorem trimSpace_pad_right (l p : List Char) (hp : ∀ c ∈ p, goIsSpace c = true) :
    trimSpace (l ++ p) = trimSpace l := by
  unfold trimSpace
  rw [dropWhile_append_split]
  by_cases h : (List.dropWhile goIsSpace l).isEmpty
  · rw [if_pos h, dropWhile_sat_nil _ _ hp]
    rw [List.isEmpty_iff] at h
    rw [h]
  · rw [if_neg h, List.reverse_append,
      dropWhile_sat_append _ _ _ (fun c hc => hp c (List.mem_reverse.mp hc))]

theorem trimSpace_pads (p1 s p2 : List Char) (h1 : ∀ c ∈ p1, goIsSpace c = true)
    (h2 : ∀ c ∈ p2, goIsSpace c = true) :
    trimSpace (p1 ++ s ++ p2) = trimSpace s := by
  rw [List.append_assoc, trimSpace_pad_left _ _ h1, trimSpace_pad_right _ _ h2]

theorem digit_not_space {c : Char} (h : isDigitC c = true) : goIsSpace c = false := by
  simp only [isDigitC, Bool.and_eq_true, decide_eq_true_eq] at h
  simp only [goIsSpace, Bool.or_eq_false_iff, Bool.and_eq_false_iff,
    decide_eq_false_iff_not]
  omega

theorem isDigits_all {s : List Char} (h : isDigits s = true) :
    ∀ c ∈ s, isDigitC c = true := by
  simp only [isDigits, Bool.and_eq_true, List.all_eq_true] at h
  exact h.2

theorem digits_trim {s : List Char} (h : isDigits s = true) : trimSpace s = s := by
  have hall : ∀ c ∈ s, goIsSpace c = false :=
    fun c hc => digit_not_space (isDigits_all h c hc)
  unfold trimSpace
  rw [dropWhile_unsat _ _ hall,
    dropWhile_unsat _ _ (fun c hc => hall c (List.mem_reverse.mp hc)),
    List.reverse_reverse]

theorem digits_nodash {s : List Char} (h : isDigits s = true) : ∀ c ∈ s, ¬ c = '-' := by
  intro c hc hdash
  have := isDigits_all h c hc
  subst hdash
  exact absurd this (by decide)

theorem space_nodash {c : Char} (h : goIsSpace c = true) : ¬ c = '-' := by
  intro hdash
  subst hdash
  exact absurd h (by decide)

theorem splitOnDash_no (l : List Char) (h : ∀ c ∈ l, ¬ c = '-') :
    splitOnDash l = [l] := by
  induction l with
  | nil => rfl
  | cons a l ih =>
    have ha : ¬ a = '-' := h a (by simp)
    have ihr := ih fun c hc => h c (by simp [hc])
    simp only [splitOnDash, if_neg ha, ihr]

theorem splitOnDash_mid (xs ys : List Char) (h : ∀ c ∈ xs, ¬ c = '-') :
    splitOnDash (xs ++ '-' :: ys) = xs :: splitOnDash ys := by
  induction xs with
  | nil => simp [splitOnDash]
  | cons a xs ih =>
    have ha : ¬ a = '-' := h a (by simp)
    have ihr := ih fun c hc => h c (by simp [hc])
    simp only [List.cons_append, splitOnDash, if_neg ha]
    rw [List.append_eq, ihr]

theorem parseUint64_digits {s : List Char} (h : isDigits s = true)
    (h2 : digitsToNat s < 2 ^ 64) : parseUint64 s = some (digitsToNat s) := by
  unfold parseUint64
  rw [if_pos ⟨h, h2⟩]

/-- Reduction of the parser on a specifier with the "bytes=" lead and one
separator between two dash-free tokens. -/
theorem parse_shape (cs : Int) (s t : List Char) (hs : ∀ c ∈ s, ¬ c = '-')
    (ht : ∀ c ∈ t, ¬ c = '-') :
    offsetAndLenFromRange ("bytes=".data ++ (s ++ '-' :: t)) cs = parseTokens s t cs := by
  unfold offsetAndLenFromRange
  rw [if_neg (by simp)]
  have htake : (("bytes=".data ++ (s ++ '-' :: t)).take 6) = "bytes=".data := by
    have h6 : "bytes=".data.length = 6 := by rfl
    rw [← h6, List.take_left]
  have hdrop : (("bytes=".data ++ (s ++ '-' :: t)).drop 6) = s ++ '-' :: t := by
    have h6 : "bytes=".data.length = 6 := by rfl
    rw [← h6, List.drop_left]
  rw [if_neg (by rw [htake]; simp), hdrop, splitOnDash_mid _ _ hs, splitOnDash_no _ ht]

theorem isDigits_ne_nil {s : List Char} (h : isDigits s = true) : s ≠ [] := by
  simp only [isDigits, Bool.and_eq_true, Bool.not_eq_true', List.isEmpty_eq_false] at h
  exact h.1

theorem writeContentRange_acceptRanges (contents : List Nat) (s : List Char) :
    (writeContentRange contents s).acceptRanges = true := by
  unfold writeContentRange
  cases offsetAndLenFromRange s (contents.length : Int) with
  | error e => rfl
  | ok p =>
    obtain ⟨o, l⟩ := p
    dsimp only
    cases ReadRange contents o (wrap64 (o + l)) with
    | none => rfl
    | some b => rfl

/-- C3 counterexample: a request whose method is not GET is answered without
the Accept-Ranges header, because the source adds that header only after
the method check has already returned. -/
theorem C3_counterexample :
    (serveContents ⟨"POST", "bytes=0-10".data, [], [], []⟩ (List.range 10)).acceptRanges
      = false := rfl

/-- C3 (amended): a response carries the Accept-Ranges: bytes header exactly
when the request method is GET; the early non-GET 400 response is written
before the header is added. -/
theorem C3_amended (req : Request) (contents : List Nat) :
    (serveContents req contents).acceptRanges = decide (req.method = "GET") := by
  unfold serveContents
  by_cases hm : req.method = "GET"
  · rw [if_neg (by simp [hm]), hm]
    by_cases h1 : req.rangeHeader = []
    · rw [if_neg (by simp [h1])]
      by_cases h2 : req.xDoltRangeHeader = []
      · rw [if_neg (by simp [h2])]
        by_cases h3 : req.queryRangeCap = []
        · by_cases h4 : req.queryRangeLower = []
          · simp [h3, h4]
          · simp [h3, h4, writeContentRange_acceptRanges]
        · simp [h3, writeContentRange_acceptRanges]
      · rw [if_pos h2]
        simp [writeContentRange_acceptRanges]
    · rw [if_pos h1]
      simp [writeContentRange_acceptRanges]
  · rw [if_pos hm]
    simp [hm]

/-- C6: ReadRange(start, end) fails exactly when end < start, end > Len or
start < 0, and otherwise returns the store's bytes from index start up to
but excluding end, a slice of length end - start. -/
theorem C6 (contents : List Nat) (start e : Int) :
    if e < start ∨ e > (contents.length : Int) ∨ start < 0 then
      ReadRange contents start e = none
    else ∃ b, ReadRange contents start e = some b ∧
      (b.length : Int) = e - start ∧
      b = (contents.take e.toNat).drop start.toNat := by
  by_cases h : e < start ∨ e > (contents.length : Int) ∨ start < 0
  · rw [if_pos h]
    unfold ReadRange
    rw [if_pos h]
  · rw [if_neg h]
    push_neg at h
    obtain ⟨h1, h2, h3⟩ := h
    refine ⟨(contents.drop start.toNat).take (e - start).toNat,
      by unfold ReadRange; rw [if_neg (by push_neg; exact ⟨h1, h2, h3⟩)], ?_, ?_⟩
    · rw [List.length_take, List.length_drop]
      have hmin : (e - start).toNat ≤ contents.length - start.toNat := by omega
      rw [min_eq_left hmin]
      omega
    · have hsum : start.toNat + (e - start).toNat = e.toNat := by omega
      rw [List.take_drop, hsum]

/-- C7: for a GET request the first non-empty specifier wins in strict
priority order — Range header, then X-Dolt-Range header, then the Range
query parameter, then the range query parameter — the response depending
only on the winning channel; with every channel empty the whole content is
served with status 200. -/
theorem C7 (contents : List Nat) (rh x qR qr : List Char) :
    serveContents ⟨"GET", rh, x, qR, qr⟩ contents =
      if rh ≠ [] then serveContents ⟨"GET", rh, [], [], []⟩ contents
      else if x ≠ [] then serveContents ⟨"GET", [], x, [], []⟩ contents
      else if qR ≠ [] then serveContents ⟨"GET", [], [], qR, []⟩ contents
      else if qr ≠ [] then serveContents ⟨"GET", [], [], [], qr⟩ contents
      else { status := 200, acceptRanges := true, contentRange := none,
             contentLength := some (contents.length : Int), body := contents } := by
  by_cases h1 : rh = [] <;> by_cases h2 : x = [] <;> by_cases h3 : qR = [] <;>
    by_cases h4 : qr = [] <;> simp [serveContents, h1, h2, h3, h4]

/-- C8: the same specifier delivered through exactly one of the four
channels — Range header, X-Dolt-Range header, Range query parameter, range
query parameter — produces identical responses (same status, same headers,
byte-identical body). -/
theorem C8 (contents : List Nat) (s : List Char) :
    serveContents ⟨"GET", s, [], [], []⟩ contents
        = serveContents ⟨"GET", [], s, [], []⟩ contents ∧
    serveContents ⟨"GET", [], s, [], []⟩ contents
        = serveContents ⟨"GET", [], [], s, []⟩ contents ∧
    serveContents ⟨"GET", [], [], s, []⟩ contents
        = serveContents ⟨"GET", [], [], [], s⟩ contents := by
  by_cases h : s = [] <;> simp [serveContents, h]

/-- C2 counterexample: in the suffix form a non-numeric token yields
errInvalidRangeStr — the same error value the source returns for a missing
"bytes=" lead or a wrong token count — not the strconv error value. -/
theorem C2_counterexample :
    offsetAndLenFromRange "bytes=-x".data 4000 = .error .invalidRangeStr := rfl

/-- C2 (amended): with the "bytes=" lead and exactly two "-"-delimited
tokens, a non-numeric token among those the parser consults yields the
strconv error in the open form (first token) and in the full form (either
token), but in the suffix form the parser discards the strconv error and
returns errInvalidRangeStr instead. -/
theorem C2_amended (cs : Int) (s t : List Char)
    (hs : ∀ c ∈ s, ¬ c = '-') (ht : ∀ c ∈ t, ¬ c = '-')
    (hbad : if s = [] then parseUint64 (trimSpace t) = none
            else if t = [] then parseUint64 (trimSpace s) = none
            else parseUint64 (trimSpace s) = none ∨ parseUint64 (trimSpace t) = none) :
    offsetAndLenFromRange ("bytes=".data ++ (s ++ '-' :: t)) cs =
      .error (if s = [] then RangeError.invalidRangeStr else RangeError.numError) := by
  rw [parse_shape cs s t hs ht]
  unfold parseTokens
  by_cases h0 : s = []
  · rw [if_pos h0] at hbad
    rw [if_pos h0, if_pos h0, hbad]
  · rw [if_neg h0] at hbad
    rw [if_neg h0, if_neg h0]
    by_cases h1 : t = []
    · rw [if_pos h1] at hbad
      rw [if_pos h1, hbad]
    · rw [if_neg h1] at hbad
      rw [if_neg h1]
      rcases hbad with hb | hb
      · rw [hb]
      · rw [hb]
        cases parseUint64 (trimSpace s) <;> rfl

/-- Go evaluation of int64(end-start) for two uint64 values below 2^63: the
wrapped uint64 difference reinterpreted as an int64 is the exact integer
difference. -/
theorem toInt64_usub64 {a b : Nat} (ha : a < 2 ^ 63) (hb : b < 2 ^ 63) :
    toInt64 (usub64 b a) = (b : Int) - a := by
  unfold usub64
  rcases le_or_lt a b with h | h
  · have h1 : b + 2 ^ 64 - a = (b - a) + 2 ^ 64 := by omega
    rw [h1, Nat.add_mod_right, Nat.mod_eq_of_lt (by omega), toInt64_of_lt (by omega)]
    omega
  · have h1 : b + 2 ^ 64 - a < 2 ^ 64 := by omega
    rw [Nat.mod_eq_of_lt h1, toInt64_of_ge (by omega)]
    omega

theorem serveContents_range (contents : List Nat) (s : List Char) (hs : s ≠ []) :
    serveContents ⟨"GET", s, [], [], []⟩ contents = writeContentRange contents s := by
  simp [serveContents, hs]

/-- C1 counterexample: the full-form specifier "bytes=5-4" has B < A and
A within the store length, yet the served status is 206 — the parsed
length is B - A + 1 = 0, and ReadRange(5, 5) succeeds with an empty
slice. -/
theorem C1_counterexample :
    (serveContents ⟨"GET", "bytes=5-4".data, [], [], []⟩ (List.range 10)).status = 206 := rfl

/-- C1 (amended): a GET request with full-form specifier "bytes=A-B" where
B + 2 <= A (B below A by at least two, so the parsed length B - A + 1 is
negative) and A at most the store length is served status 400: the
negative length is rejected by the store's bounds check, not at parse
time.  When B = A - 1 the parsed length is zero and the request is instead
served 206 with an empty body. -/
theorem C1_amended (contents : List Nat) (s t : List Char)
    (hs : isDigits s = true) (ht : isDigits t = true)
    (hlt : digitsToNat t + 2 ≤ digitsToNat s)
    (hbound : digitsToNat s ≤ contents.length)
    (h63 : digitsToNat s < 2 ^ 63) :
    (serveContents ⟨"GET", "bytes=".data ++ (s ++ '-' :: t), [], [], []⟩ contents).status
      = 400 := by
  rw [serveContents_range _ _ (by simp)]
  unfold writeContentRange
  rw [parse_shape _ _ _ (digits_nodash hs) (digits_nodash ht)]
  unfold parseTokens
  rw [if_neg (isDigits_ne_nil hs), if_neg (isDigits_ne_nil ht),
    digits_trim hs, digits_trim ht,
    parseUint64_digits hs (by omega), parseUint64_digits ht (by omega)]
  dsimp only
  rw [toInt64_of_lt h63, toInt64_usub64 h63 (by omega)]
  have hlen : wrap64 ((digitsToNat t : Int) - digitsToNat s + 1)
      = (digitsToNat t : Int) - digitsToNat s + 1 :=
    wrap64_eq_self (by omega) (by omega)
  rw [hlen]
  have hend : wrap64 ((digitsToNat s : Int) + ((digitsToNat t : Int) - digitsToNat s + 1))
      = (digitsToNat t : Int) + 1 := by
    rw [show (digitsToNat s : Int) + ((digitsToNat t : Int) - digitsToNat s + 1)
        = (digitsToNat t : Int) + 1 by ring]
    exact wrap64_eq_self (by omega) (by omega)
  rw [hend]
  unfold ReadRange
  rw [if_pos (Or.inl (by omega))]

theorem C1_amended_witness :
    (serveContents ⟨"GET", "bytes=".data ++ ("5".data ++ '-' :: "3".data), [], [], []⟩
      (List.range 10)).status = 400 :=
  C1_amended (List.range 10) "5".data "3".data (by decide) (by decide) (by decide)
    (by decide) (by decide)

/-- C9: a GET request with open-form specifier "bytes=N-" is served 206
with an empty body and Content-Length 0 when N equals the store length
(the zero-length window at the upper boundary is accepted), and 400 for
every N strictly above the store length. -/
theorem C9 (contents : List Nat) (t : List Char) (ht : isDigits t = true)
    (hL : contents.length < 2 ^ 63)
    (hge : contents.length ≤ digitsToNat t) :
    if digitsToNat t = contents.length then
      (serveContents ⟨"GET", "bytes=".data ++ (t ++ '-' :: []), [], [], []⟩ contents).status
          = 206 ∧
      (serveContents ⟨"GET", "bytes=".data ++ (t ++ '-' :: []), [], [], []⟩ contents).body
          = [] ∧
      (serveContents ⟨"GET", "bytes=".data ++ (t ++ '-' :: []), [], [], []⟩
          contents).contentLength = some 0
    else
      (serveContents ⟨"GET", "bytes=".data ++ (t ++ '-' :: []), [], [], []⟩ contents).status
          = 400 := by
  rw [serveContents_range _ _ (by simp)]
  unfold writeContentRange
  rw [parse_shape _ _ _ (digits_nodash ht) (by simp)]
  unfold parseTokens
  rw [if_neg (isDigits_ne_nil ht), if_pos rfl, digits_trim ht]
  by_cases h64 : digitsToNat t < 2 ^ 64
  · rw [parseUint64_digits ht h64]
    dsimp only
    by_cases h63 : digitsToNat t < 2 ^ 63
    · rw [toInt64_of_lt h63]
      have hlen2 : wrap64 ((contents.length : Int) - digitsToNat t)
          = (contents.length : Int) - digitsToNat t :=
        wrap64_eq_self (by omega) (by omega)
      rw [hlen2]
      have hend : wrap64 ((digitsToNat t : Int)
          + ((contents.length : Int) - digitsToNat t)) = (contents.length : Int) := by
        rw [show (digitsToNat t : Int) + ((contents.length : Int) - digitsToNat t)
            = (contents.length : Int) by ring]
        exact wrap64_eq_self (by omega) (by omega)
      rw [hend]
      by_cases heq : digitsToNat t = contents.length
      · rw [if_pos heq]
        unfold ReadRange
        rw [if_neg (by push_neg; exact ⟨by omega, by omega, by omega⟩)]
        dsimp only
        refine ⟨rfl, ?_, ?_⟩
        · rw [show ((contents.length : Int) - (digitsToNat t : Int)).toNat = 0 by omega]
          exact List.take_zero _
        · rw [show (contents.length : Int) - (digitsToNat t : Int) = 0 by omega]
      · rw [if_neg heq]
        unfold ReadRange
        rw [if_pos (Or.inl (by omega))]
    · rw [toInt64_of_ge (by omega), if_neg (by omega)]
      unfold ReadRange
      rw [if_pos (Or.inr (Or.inr (by omega)))]
  · have hnone : parseUint64 t = none := by
      unfold parseUint64
      rw [if_neg (by rintro ⟨-, hlt2⟩; omega)]
    rw [hnone, if_neg (by omega)]

theorem C9_witness :
    (if digitsToNat "3".data = (List.range 3).length then
      (serveContents ⟨"GET", "bytes=".data ++ ("3".data ++ '-' :: []), [], [], []⟩
          (List.range 3)).status = 206 ∧
      (serveContents ⟨"GET", "bytes=".data ++ ("3".data ++ '-' :: []), [], [], []⟩
          (List.range 3)).body = [] ∧
      (serveContents ⟨"GET", "bytes=".data ++ ("3".data ++ '-' :: []), [], [], []⟩
          (List.range 3)).contentLength = some 0
    else
      (serveContents ⟨"GET", "bytes=".data ++ ("3".data ++ '-' :: []), [], [], []⟩
          (List.range 3)).status = 400) :=
  C9 (List.range 3) "3".data (by decide) (by decide) (by decide)

/-- C5 counterexample: the suffix specifier "bytes=-9223372036854775808"
(N = 2^63, a well-formed uint64 numeral) against content size 4000 parses
to length -9223372036854775808, not to length N as the spec formula
states: the uint64 value reinterpreted as an int64 wraps at 2^63. -/
theorem C5_counterexample :
    offsetAndLenFromRange "bytes=-9223372036854775808".data 4000 =
      .ok (-9223372036854771808, -9223372036854775808) := rfl

/-- C5 (amended): the spec formulas for the three well-formed grammar forms
hold whenever every numeric token value is below 2^63 and, in the full
form, B - A + 1 is below 2^63: suffix "-N" yields
(contentSize - N, N); open "N-" yields (N, contentSize - N); full "A-B"
yields (A, B - A + 1), with no clamping of any result.  Token values at or
above 2^63 wrap through the int64 conversion instead. -/
theorem C5_amended (cs : Int) (s t : List Char)
    (hcs0 : 0 ≤ cs) (hcs : cs < 2 ^ 63)
    (hs : s ≠ [] → isDigits s = true ∧ digitsToNat s < 2 ^ 63)
    (ht : t ≠ [] → isDigits t = true ∧ digitsToNat t < 2 ^ 63)
    (hne : ¬(s = [] ∧ t = []))
    (hfull : s ≠ [] → t ≠ [] →
      (digitsToNat t : Int) - digitsToNat s + 1 < 2 ^ 63) :
    offsetAndLenFromRange ("bytes=".data ++ (s ++ '-' :: t)) cs =
      .ok (if s = [] then (cs - digitsToNat t, (digitsToNat t : Int))
           else if t = [] then ((digitsToNat s : Int), cs - digitsToNat s)
           else ((digitsToNat s : Int), (digitsToNat t : Int) - digitsToNat s + 1)) := by
  have hsnd : ∀ c ∈ s, ¬ c = '-' := by
    by_cases h0 : s = []
    · subst h0; simp
    · exact digits_nodash (hs h0).1
  have htnd : ∀ c ∈ t, ¬ c = '-' := by
    by_cases h0 : t = []
    · subst h0; simp
    · exact digits_nodash (ht h0).1
  rw [parse_shape _ _ _ hsnd htnd]
  unfold parseTokens
  by_cases h0 : s = []
  · have h1 : t ≠ [] := fun h1 => hne ⟨h0, h1⟩
    obtain ⟨htd, ht63⟩ := ht h1
    rw [if_pos h0, if_pos h0, digits_trim htd, parseUint64_digits htd (by omega)]
    dsimp only
    rw [toInt64_of_lt ht63, wrap64_eq_self (by omega) (by omega)]
  · obtain ⟨hsd, hs63⟩ := hs h0
    rw [if_neg h0, if_neg h0, digits_trim hsd, parseUint64_digits hsd (by omega)]
    by_cases h1 : t = []
    · rw [if_pos h1, if_pos h1]
      dsimp only
      rw [toInt64_of_lt hs63, wrap64_eq_self (by omega) (by omega)]
    · obtain ⟨htd, ht63⟩ := ht h1
      have hf := hfull h0 h1
      rw [if_neg h1, if_neg h1, digits_trim htd, parseUint64_digits htd (by omega)]
      dsimp only
      rw [toInt64_of_lt hs63, toInt64_usub64 hs63 ht63,
        wrap64_eq_self (by omega) (by omega)]

theorem C5_amended_witness :
    offsetAndLenFromRange ("bytes=".data ++ ("2500".data ++ '-' :: "2599".data)) 4000 =
      .ok (if "2500".data = ([] : List Char) then
            (4000 - digitsToNat "2599".data, (digitsToNat "2599".data : Int))
           else if "2599".data = ([] : List Char) then
            ((digitsToNat "2500".data : Int), 4000 - digitsToNat "2500".data)
           else ((digitsToNat "2500".data : Int),
            (digitsToNat "2599".data : Int) - digitsToNat "2500".data + 1)) :=
  C5_amended 4000 "2500".data "2599".data (by decide) (by decide)
    (fun _ => ⟨by decide, by decide⟩) (fun _ => ⟨by decide, by decide⟩)
    (by simp) (fun _ _ => by decide)

/-- C10: the parser trims whitespace around each numeric token, so padding
the tokens of a specifier with whitespace characters — in any of the three
forms, as long as an absent token stays absent — parses to exactly the
same result as the unpadded specifier. -/
theorem C10 (cs : Int) (s t p1 p2 p3 p4 : List Char)
    (hsp : ∀ c ∈ p1 ++ p2 ++ p3 ++ p4, goIsSpace c = true)
    (hs : ∀ c ∈ s, ¬ c = '-') (ht : ∀ c ∈ t, ¬ c = '-')
    (hs0 : s = [] → p1 = [] ∧ p2 = []) (ht0 : t = [] → p3 = [] ∧ p4 = []) :
    offsetAndLenFromRange
        ("bytes=".data ++ ((p1 ++ s ++ p2) ++ '-' :: (p3 ++ t ++ p4))) cs =
      offsetAndLenFromRange ("bytes=".data ++ (s ++ '-' :: t)) cs := by
  have hp1 : ∀ c ∈ p1, goIsSpace c = true := fun c hc => hsp c (by simp [hc])
  have hp2 : ∀ c ∈ p2, goIsSpace c = true := fun c hc => hsp c (by simp [hc])
  have hp3 : ∀ c ∈ p3, goIsSpace c = true := fun c hc => hsp c (by simp [hc])
  have hp4 : ∀ c ∈ p4, goIsSpace c = true := fun c hc => hsp c (by simp [hc])
  have hnd1 : ∀ c ∈ p1 ++ s ++ p2, ¬ c = '-' := by
    intro c hc
    rcases (by simpa using hc : c ∈ p1 ∨ c ∈ s ∨ c ∈ p2) with h | h | h
    · exact space_nodash (hp1 c h)
    · exact hs c h
    · exact space_nodash (hp2 c h)
  have hnd2 : ∀ c ∈ p3 ++ t ++ p4, ¬ c = '-' := by
    intro c hc
    rcases (by simpa using hc : c ∈ p3 ∨ c ∈ t ∨ c ∈ p4) with h | h | h
    · exact space_nodash (hp3 c h)
    · exact ht c h
    · exact space_nodash (hp4 c h)
  rw [parse_shape _ _ _ hnd1 hnd2, parse_shape _ _ _ hs ht]
  unfold parseTokens
  by_cases h0 : s = []
  · obtain ⟨e1, e2⟩ := hs0 h0
    subst h0 e1 e2
    rw [if_pos (show (([] : List Char) ++ [] ++ []) = [] from rfl), if_pos rfl,
      trimSpace_pads _ _ _ hp3 hp4]
  · have hne1 : p1 ++ s ++ p2 ≠ [] := by simp [h0]
    rw [if_neg hne1, if_neg h0, trimSpace_pads _ _ _ hp1 hp2]
    by_cases h1 : t = []
    · obtain ⟨e3, e4⟩ := ht0 h1
      subst h1 e3 e4
      rw [if_pos (show (([] : List Char) ++ [] ++ []) = [] from rfl), if_pos rfl]
    · have hne2 : p3 ++ t ++ p4 ≠ [] := by simp [h1]
      rw [if_neg hne2, if_neg h1, trimSpace_pads _ _ _ hp3 hp4]

theorem C10_witness :
    offsetAndLenFromRange
        ("bytes=".data ++ ((" ".data ++ "0".data ++ " ".data) ++ '-' ::
          (" ".data ++ "100".data ++ []))) 4000 =
      offsetAndLenFromRange ("bytes=".data ++ ("0".data ++ '-' :: "100".data)) 4000 :=
  C10 4000 "0".data "100".data " ".data " ".data " ".data []
    (by decide) (by decide) (by decide) (by simp) (by simp)

theorem parseUint64_bound {x : List Char} {n : Nat} (h : parseUint64 x = some n) :
    n < 2 ^ 64 := by
  unfold parseUint64 at h
  split at h
  · rename_i hc
    injection h with h
    omega
  · exact absurd h (by simp)

theorem parse_tokens_range {t0 t1 : List Char} {cs o l : Int}
    (h : parseTokens t0 t1 cs = .ok (o, l)) :
    -(2 ^ 63) ≤ o ∧ o < 2 ^ 63 ∧ -(2 ^ 63) ≤ l ∧ l < 2 ^ 63 := by
  unfold parseTokens at h
  by_cases h0 : t0 = []
  · rw [if_pos h0] at h
    cases hp : parseUint64 (trimSpace t1) with
    | none => rw [hp] at h; exact absurd h (by simp)
    | some n =>
      rw [hp] at h
      simp only [Except.ok.injEq, Prod.mk.injEq] at h
      obtain ⟨ho, hl⟩ := h
      have hn := parseUint64_bound hp
      exact ⟨ho ▸ wrap64_lb _, ho ▸ wrap64_ub _, hl ▸ toInt64_lb hn, hl ▸ toInt64_ub hn⟩
  · rw [if_neg h0] at h
    by_cases h1 : t1 = []
    · rw [if_pos h1] at h
      cases hp : parseUint64 (trimSpace t0) with
      | none => rw [hp] at h; exact absurd h (by simp)
      | some n =>
        rw [hp] at h
        simp only [Except.ok.injEq, Prod.mk.injEq] at h
        obtain ⟨ho, hl⟩ := h
        have hn := parseUint64_bound hp
        exact ⟨ho ▸ toInt64_lb hn, ho ▸ toInt64_ub hn, hl ▸ wrap64_lb _, hl ▸ wrap64_ub _⟩
    · rw [if_neg h1] at h
      cases hp : parseUint64 (trimSpace t0) with
      | none =>
        rw [hp] at h
        cases parseUint64 (trimSpace t1) <;> exact absurd h (by simp)
      | some a =>
        rw [hp] at h
        cases hq : parseUint64 (trimSpace t1) with
        | none => rw [hq] at h; exact absurd h (by simp)
        | some b =>
          rw [hq] at h
          simp only [Except.ok.injEq, Prod.mk.injEq] at h
          obtain ⟨ho, hl⟩ := h
          have ha := parseUint64_bound hp
          exact ⟨ho ▸ toInt64_lb ha, ho ▸ toInt64_ub ha, hl ▸ wrap64_lb _, hl ▸ wrap64_ub _⟩

theorem parse_range_ok {r : List Char} {cs o l : Int}
    (h : offsetAndLenFromRange r cs = .ok (o, l)) :
    -(2 ^ 63) ≤ o ∧ o < 2 ^ 63 ∧ -(2 ^ 63) ≤ l ∧ l < 2 ^ 63 := by
  unfold offsetAndLenFromRange at h
  by_cases h0 : r = []
  · rw [if_pos h0] at h
    simp only [Except.ok.injEq, Prod.mk.injEq] at h
    obtain ⟨ho, hl⟩ := h
    constructor
    · omega
    constructor
    · omega
    constructor
    · omega
    · omega
  · rw [if_neg h0] at h
    by_cases h1 : r.take 6 ≠ "bytes=".data
    · rw [if_pos h1] at h; exact absurd h (by simp)
    · rw [if_neg h1] at h
      rcases hsp : splitOnDash (r.drop 6) with _ | ⟨t0, _ | ⟨t1, _ | ⟨t2, rest⟩⟩⟩ <;>
        rw [hsp] at h
      · exact absurd h (by simp)
      · exact absurd h (by simp)
      · exact parse_tokens_range h
      · exact absurd h (by simp)

theorem writeContentRange_cases (contents : List Nat) (s : List Char) :
    ((writeContentRange contents s).status = 206 ∧
      ∃ o e, (writeContentRange contents s).contentRange
          = some (o, e, (contents.length : Int)) ∧
        (writeContentRange contents s).contentLength = some (e - o + 1) ∧
        (((writeContentRange contents s).body.length : Int) = e - o + 1)) ∨
    (((writeContentRange contents s).status = 200 ∨
        (writeContentRange contents s).status = 400) ∧
      (writeContentRange contents s).contentRange = none) := by
  unfold writeContentRange
  cases hP : offsetAndLenFromRange s (contents.length : Int) with
  | error e => exact Or.inr ⟨Or.inr rfl, rfl⟩
  | ok p =>
    obtain ⟨o, l⟩ := p
    obtain ⟨ho1, ho2, hl1, hl2⟩ := parse_range_ok hP
    dsimp only
    cases hR : ReadRange contents o (wrap64 (o + l)) with
    | none => exact Or.inr ⟨Or.inr rfl, rfl⟩
    | some b =>
      left
      unfold ReadRange at hR
      by_cases hc : wrap64 (o + l) < o ∨ wrap64 (o + l) > (contents.length : Int) ∨ o < 0
      · rw [if_pos hc] at hR; exact absurd hR (by simp)
      · rw [if_neg hc] at hR
        push_neg at hc
        obtain ⟨hge, hle, h0⟩ := hc
        have hwrap : wrap64 (o + l) = o + l := by
          by_cases hov : o + l < 2 ^ 63
          · exact wrap64_eq_self (by omega) (by omega)
          · exfalso
            have hsub : wrap64 (o + l) = o + l - 2 ^ 64 := by unfold wrap64; omega
            omega
        rw [hwrap] at hge hle hR
        have hub : o + l < 2 ^ 63 := by
          have := wrap64_ub (o + l)
          omega
        injection hR with hR
        have harg : (o + l - o).toNat = l.toNat := by omega
        rw [harg] at hR
        refine ⟨rfl, o, o + l - 1, ?_, ?_, ?_⟩
        · rw [hwrap, show wrap64 (o + l - 1) = o + l - 1 from by unfold wrap64; omega]
        · rw [show o + l - 1 - o + 1 = l from by ring]
        · rw [← hR, List.length_take, List.length_drop,
            min_eq_left (by omega)]
          omega

/-- C4: on every 206 response the Content-Range header is
bytes o-e/Len with e - o + 1 equal both to the declared Content-Length and
to the exact length of the body slice the store returned; on every non-206
response (status 200 or 400) no Content-Range header is present. -/
theorem C4 (req : Request) (contents : List Nat) :
    ((serveContents req contents).status = 206 ∧
      ∃ o e, (serveContents req contents).contentRange
          = some (o, e, (contents.length : Int)) ∧
        (serveContents req contents).contentLength = some (e - o + 1) ∧
        (((serveContents req contents).body.length : Int) = e - o + 1)) ∨
    (((serveContents req contents).status = 200 ∨
        (serveContents req contents).status = 400) ∧
      (serveContents req contents).contentRange = none) := by
  by_cases hm : req.method = "GET"
  case neg =>
    have hserve : serveContents req contents =
        { status := 400, acceptRanges := false, contentRange := none,
          contentLength := none, body := badMethodBody } := by
      simp [serveContents, hm]
    rw [hserve]
    exact Or.inr ⟨Or.inr rfl, rfl⟩
  by_cases h1 : req.rangeHeader = []
  case neg =>
    have hserve : serveContents req contents = writeContentRange contents req.rangeHeader := by
      simp [serveContents, hm, h1]
    rw [hserve]
    exact writeContentRange_cases contents req.rangeHeader
  by_cases h2 : req.xDoltRangeHeader = []
  case neg =>
    have hserve : serveContents req contents
        = writeContentRange contents req.xDoltRangeHeader := by
      simp [serveContents, hm, h1, h2]
    rw [hserve]
    exact writeContentRange_cases contents req.xDoltRangeHeader
  by_cases h3 : req.queryRangeCap = []
  case neg =>
    have hserve : serveContents req contents
        = writeContentRange contents req.queryRangeCap := by
      simp [serveContents, hm, h1, h2, h3]
    rw [hserve]
    exact writeContentRange_cases contents req.queryRangeCap
  by_cases h4 : req.queryRangeLower = []
  case neg =>
    have hserve : serveContents req contents
        = writeContentRange contents req.queryRangeLower := by
      simp [serveContents, hm, h1, h2, h3, h4]
    rw [hserve]
    exact writeContentRange_cases contents req.queryRangeLower
  · have hserve : serveContents req contents =
        { status := 200, acceptRanges := true, contentRange := none,
          contentLength := some (contents.length : Int), body := contents } := by
      simp [serveContents, hm, h1, h2, h3, h4]
    rw [hserve]
    exact Or.inr ⟨Or.inl rfl, rfl⟩

theorem C2_amended_witness :
    offsetAndLenFromRange ("bytes=".data ++ ("5".data ++ '-' :: "x".data)) 4000 =
      .error (if "5".data = ([] : List Char) then RangeError.invalidRangeStr
              else RangeError.numError) :=
  C2_amended 4000 "5".data "x".data (by decide) (by decide) (by decide)
